import Mathlib

set_option linter.unusedVariables false
set_option linter.unnecessarySeqFocus false

/-!
Shallow embedding of the extraction task queue of the Station_meteo
repository (src/projet/queue.py): the task record, the FIFO queue, the
priority queue and the `ExtractionQueue` orchestrator, together with
theorems settling the specification claims about them.

The pandas `DataFrame` result payload is opaque to the queue code, so the
whole development is parameterized over an arbitrary result type `R`.
Timestamps (`datetime`) are modelled as natural numbers: the queue code
only ever compares them with `<`.
-/

namespace StationMeteo

/-- Status of an extraction task (`TaskStatus` enum). -/
inductive TaskStatus where
  | pending
  | processing
  | completed
  | failed
  | cancelled
  deriving DecidableEq

/-- Priority levels for extraction tasks (`TaskPriority` enum). -/
inductive TaskPriority where
  | low
  | normal
  | high
  | urgent
  deriving DecidableEq

/-- Numeric value of a priority: LOW = 3, NORMAL = 2, HIGH = 1, URGENT = 0. -/
def TaskPriority.value : TaskPriority → Nat
  | .low => 3
  | .normal => 2
  | .high => 1
  | .urgent => 0

/-- A weather data extraction task (`ExtractionTask` dataclass).
`created_at` is the creation timestamp, `result` the opaque extraction
payload, `metadata` the free-form metadata dict. -/
structure ExtractionTask (R : Type) where
  task_id : String
  station_id : String
  station_name : String
  start_date : String
  end_date : String
  source : String
  priority : TaskPriority
  created_at : Nat
  status : TaskStatus
  result : Option R
  error_message : Option String
  retry_count : Nat
  max_retries : Nat
  metadata : List (String × String)
  deriving DecidableEq

/-- `ExtractionTask.__lt__`: compare by priority value, ties broken by
creation timestamp. -/
def ExtractionTask.lt {R : Type} (a b : ExtractionTask R) : Bool :=
  if a.priority.value ≠ b.priority.value then
    decide (a.priority.value < b.priority.value)
  else
    decide (a.created_at < b.created_at)

/-- The FIFO `Queue` class: a deque of items plus an optional capacity.
The `thread_safe` flag only wraps the same operations in a lock, so it is
not part of the functional model. -/
structure Queue (T : Type) where
  items : List T
  max_size : Option Nat

/-- `Queue.enqueue` / `Queue._enqueue_...`: reject when the queue is at
capacity, otherwise append at the back. Returns the new queue and the
boolean result. -/
def Queue.enqueue {T : Type} (q : Queue T) (item : T) : Queue T × Bool :=
  match q.max_size with
  | some m =>
      if q.items.length ≥ m then (q, false)
      else ({ q with items := q.items ++ [item] }, true)
  | none => ({ q with items := q.items ++ [item] }, true)

/-- `Queue.dequeue`: pop from the front, `none` when empty. -/
def Queue.dequeue {T : Type} (q : Queue T) : Queue T × Option T :=
  match q.items with
  | [] => (q, none)
  | x :: rest => ({ q with items := rest }, some x)

/-- `Queue.is_full`: true exactly when a capacity is set and reached. -/
def Queue.is_full {T : Type} (q : Queue T) : Bool :=
  match q.max_size with
  | none => false
  | some m => decide (q.items.length ≥ m)

/-- `Queue.size`. -/
def Queue.size {T : Type} (q : Queue T) : Nat := q.items.length

/-- The `PriorityQueue` class: a list kept sorted by the item order. -/
structure PriorityQueue (T : Type) where
  items : List T

/-- The insertion loop of `PriorityQueue._enqueue_...`: place the item
before the first existing item it compares less than, else append. -/
def insertSorted {T : Type} (lt : T → T → Bool) (item : T) : List T → List T
  | [] => [item]
  | x :: xs => if lt item x then item :: x :: xs else x :: insertSorted lt item xs

/-- `PriorityQueue.enqueue` (the comparison is passed explicitly; Python
uses the item type's `__lt__`). -/
def PriorityQueue.enqueue {T : Type} (lt : T → T → Bool) (q : PriorityQueue T)
    (item : T) : PriorityQueue T :=
  ⟨insertSorted lt item q.items⟩

/-- `PriorityQueue.dequeue`: pop the front (highest priority) item. -/
def PriorityQueue.dequeue {T : Type} (q : PriorityQueue T) :
    PriorityQueue T × Option T :=
  match q.items with
  | [] => (q, none)
  | x :: rest => (⟨rest⟩, some x)

/-- Membership test of a Python dict keyed by task id (modelled as an
association list with unique keys). -/
def dictContains {α : Type} (k : String) (d : List (String × α)) : Bool :=
  d.any (fun p => p.1 == k)

/-- `d[k]` lookup, `none` when absent. -/
def dictGet {α : Type} (k : String) (d : List (String × α)) : Option α :=
  match d.find? (fun p => p.1 == k) with
  | some p => some p.2
  | none => none

/-- `d[k] = v`: replace the existing binding, else append a new one. -/
def dictInsert {α : Type} (k : String) (v : α) (d : List (String × α)) :
    List (String × α) :=
  if dictContains k d then d.map (fun p => if p.1 == k then (k, v) else p)
  else d ++ [(k, v)]

/-- `d.pop(k)`: remove the binding of `k` (the first one, which is the
only one since dict keys are unique). -/
def dictErase {α : Type} (k : String) : List (String × α) → List (String × α)
  | [] => []
  | p :: rest => if p.1 == k then rest else p :: dictErase k rest

/-- The `ExtractionQueue` orchestrator state: the pending priority queue
and the processing / completed / failed maps. -/
structure ExtractionQueue (R : Type) where
  tasks_queue : PriorityQueue (ExtractionTask R)
  completed_tasks : List (String × ExtractionTask R)
  failed_tasks : List (String × ExtractionTask R)
  processing_tasks : List (String × ExtractionTask R)

/-- A freshly constructed `ExtractionQueue`. -/
def ExtractionQueue.empty {R : Type} : ExtractionQueue R := ⟨⟨[]⟩, [], [], []⟩

/-- `ExtractionQueue.add_task`: reject tasks not in PENDING status,
otherwise insert into the priority queue. -/
def ExtractionQueue.add_task {R : Type} (q : ExtractionQueue R)
    (task : ExtractionTask R) : ExtractionQueue R × Bool :=
  if task.status ≠ TaskStatus.pending then (q, false)
  else ({ q with tasks_queue := q.tasks_queue.enqueue ExtractionTask.lt task }, true)

/-- `ExtractionQueue.get_next_task`: dequeue the highest-priority task,
mark it PROCESSING and record it in the processing map. -/
def ExtractionQueue.get_next_task {R : Type} (q : ExtractionQueue R) :
    ExtractionQueue R × Option (ExtractionTask R) :=
  match q.tasks_queue.dequeue with
  | (tq, none) => ({ q with tasks_queue := tq }, none)
  | (tq, some t) =>
      let t2 := { t with status := TaskStatus.processing }
      ({ q with tasks_queue := tq,
                processing_tasks := dictInsert t2.task_id t2 q.processing_tasks },
       some t2)

/-- `ExtractionQueue.complete_task` / `_complete_task_...`: move the task
from processing to completed, setting its status and result. -/
def ExtractionQueue.complete_task {R : Type} (q : ExtractionQueue R)
    (task_id : String) (result : R) : ExtractionQueue R × Bool :=
  match dictGet task_id q.processing_tasks with
  | none => (q, false)
  | some t =>
      let t2 := { t with status := TaskStatus.completed, result := some result }
      ({ q with processing_tasks := dictErase task_id q.processing_tasks,
                completed_tasks := dictInsert task_id t2 q.completed_tasks },
       true)

/-- `ExtractionQueue.fail_task` / `_fail_task_...`: record the error and
bump the retry counter; re-enqueue as PENDING when `retry` is set and the
post-increment counter is still below `max_retries`, else move to the
failed map as FAILED. -/
def ExtractionQueue.fail_task {R : Type} (q : ExtractionQueue R)
    (task_id : String) (error_message : String) (retry : Bool) :
    ExtractionQueue R × Bool :=
  match dictGet task_id q.processing_tasks with
  | none => (q, false)
  | some t =>
      let t2 := { t with error_message := some error_message,
                         retry_count := t.retry_count + 1 }
      if retry = true ∧ t2.retry_count < t2.max_retries then
        let t3 := { t2 with status := TaskStatus.pending }
        ({ q with processing_tasks := dictErase task_id q.processing_tasks,
                  tasks_queue := q.tasks_queue.enqueue ExtractionTask.lt t3 },
         true)
      else
        let t3 := { t2 with status := TaskStatus.failed }
        ({ q with processing_tasks := dictErase task_id q.processing_tasks,
                  failed_tasks := dictInsert task_id t3 q.failed_tasks },
         false)

/-- `ExtractionQueue.get_task_result`: the stored result of a completed
task, `none` otherwise. -/
def ExtractionQueue.get_task_result {R : Type} (q : ExtractionQueue R)
    (task_id : String) : Option R :=
  match dictGet task_id q.completed_tasks with
  | some t => t.result
  | none => none

/-- `get_pending_count`. -/
def ExtractionQueue.get_pending_count {R : Type} (q : ExtractionQueue R) : Nat :=
  q.tasks_queue.items.length

/-- `get_processing_count`. -/
def ExtractionQueue.get_processing_count {R : Type} (q : ExtractionQueue R) : Nat :=
  q.processing_tasks.length

/-- `get_completed_count`. -/
def ExtractionQueue.get_completed_count {R : Type} (q : ExtractionQueue R) : Nat :=
  q.completed_tasks.length

/-- `get_failed_count`. -/
def ExtractionQueue.get_failed_count {R : Type} (q : ExtractionQueue R) : Nat :=
  q.failed_tasks.length

/-- The dictionary returned by `ExtractionQueue.get_stats`. -/
structure QueueStats where
  pending : Nat
  processing : Nat
  completed : Nat
  failed : Nat
  total : Nat
  deriving DecidableEq

/-- `ExtractionQueue.get_stats`. -/
def ExtractionQueue.get_stats {R : Type} (q : ExtractionQueue R) : QueueStats :=
  { pending := q.get_pending_count
    processing := q.get_processing_count
    completed := q.get_completed_count
    failed := q.get_failed_count
    total := q.get_pending_count + q.get_processing_count +
             q.get_completed_count + q.get_failed_count }

/-- `ExtractionQueue.clear`: empty all four collections. -/
def ExtractionQueue.clear {R : Type} (_ : ExtractionQueue R) : ExtractionQueue R :=
  ⟨⟨[]⟩, [], [], []⟩

/-- The ordering key of a task: the pair `(priority.value, created_at)`
that `ExtractionTask.__lt__` compares lexicographically. -/
def taskKey {R : Type} (t : ExtractionTask R) : Nat × Nat :=
  (t.priority.value, t.created_at)

/-- Strict lexicographic order on ordering keys, shaped exactly like
`ExtractionTask.__lt__`. -/
def keyLt (p q : Nat × Nat) : Bool :=
  if p.1 ≠ q.1 then decide (p.1 < q.1) else decide (p.2 < q.2)

/-- Non-strict lexicographic order on ordering keys: non-decreasing
priority value, and among equal priority non-decreasing creation time. -/
def keyLe (p q : Nat × Nat) : Prop :=
  p.1 < q.1 ∨ (p.1 = q.1 ∧ p.2 ≤ q.2)

/-- The non-strict task order induced by the ordering key. -/
def taskLe {R : Type} (a b : ExtractionTask R) : Prop :=
  keyLe (taskKey a) (taskKey b)

/-- Add a list of tasks to an `ExtractionQueue` by successive
`add_task` calls. -/
def addAll {R : Type} (q : ExtractionQueue R) (ts : List (ExtractionTask R)) :
    ExtractionQueue R :=
  ts.foldl (fun acc t => (acc.add_task t).1) q

/-- The list of tasks returned by `n` successive `get_next_task` calls
(stopping early if the queue empties). -/
def drainTasks {R : Type} : ExtractionQueue R → Nat → List (ExtractionTask R)
  | _, 0 => []
  | q, n + 1 =>
    match q.get_next_task with
    | (q2, some t) => t :: drainTasks q2 n
    | (_, none) => []

/-- One public operation on an `ExtractionQueue`. -/
inductive QOp (R : Type) where
  | add (t : ExtractionTask R)
  | next
  | complete (task_id : String) (result : R)
  | fail (task_id : String) (error_message : String) (retry : Bool)
  | clearAll
  deriving DecidableEq

/-- Apply one operation to the state (discarding the returned value). -/
def stepOp {R : Type} (q : ExtractionQueue R) : QOp R → ExtractionQueue R
  | .add t => (q.add_task t).1
  | .next => q.get_next_task.1
  | .complete i r => (q.complete_task i r).1
  | .fail i m b => (q.fail_task i m b).1
  | .clearAll => q.clear

/-- Run a sequence of operations. -/
def runOps {R : Type} (q : ExtractionQueue R) (ops : List (QOp R)) :
    ExtractionQueue R :=
  ops.foldl stepOp q

/-- The ids of the tasks sitting in the pending priority queue. -/
def pendingIds {R : Type} (q : ExtractionQueue R) : List String :=
  q.tasks_queue.items.map (fun t => t.task_id)

/-- All task ids known to the queue, one occurrence per collection
membership: pending, then processing, completed and failed map keys. -/
def allIds {R : Type} (q : ExtractionQueue R) : List String :=
  pendingIds q ++ q.processing_tasks.map Prod.fst ++
    q.completed_tasks.map Prod.fst ++ q.failed_tasks.map Prod.fst

/-- Every entry of the processing map is keyed by its own task's id:
the code only ever writes `processing_tasks[task.task_id] = task`. -/
def procConsistent {R : Type} (q : ExtractionQueue R) : Prop :=
  ∀ p ∈ q.processing_tasks, (p : String × ExtractionTask R).2.task_id = p.1

/-- Validity of one operation in a state: `add_task` is only issued for a
PENDING task whose id is not yet known to the queue (the claims assume
distinct ids); every other operation is always a valid call. -/
def validOp {R : Type} (q : ExtractionQueue R) : QOp R → Bool
  | .add t => decide (t.status = TaskStatus.pending) &&
      decide (t.task_id ∉ allIds q)
  | _ => true

/-- Validity of a whole operation sequence from a given state. -/
def validOps {R : Type} (q : ExtractionQueue R) : List (QOp R) → Bool
  | [] => true
  | op :: ops => validOp q op && validOps (stepOp q op) ops

/-- The ids introduced by an operation (the id of an added task). -/
def opIds {R : Type} : QOp R → List String
  | .add t => [t.task_id]
  | _ => []

/-- All ids added over a sequence of operations. -/
def addedIds {R : Type} : List (QOp R) → List String
  | [] => []
  | op :: ops => opIds op ++ addedIds ops

/-- Dequeue a task and immediately fail it with `retry = True`: one
attempt of the retry scenario. Returns the new state and the boolean
returned by `fail_task`. -/
def attemptAndFail {R : Type} (q : ExtractionQueue R) (id msg : String) :
    ExtractionQueue R × Bool :=
  (q.get_next_task.1).fail_task id msg true

/-- Iterate `attemptAndFail` `n` times, collecting the `fail_task`
results. -/
def failRun {R : Type} (q : ExtractionQueue R) (id msg : String) :
    Nat → ExtractionQueue R × List Bool
  | 0 => (q, [])
  | n + 1 =>
    let p := attemptAndFail q id msg
    let rest := failRun p.1 id msg n
    (rest.1, p.2 :: rest.2)

/-- `n` successive `PriorityQueue.dequeue` results. -/
def PriorityQueue.drainList {T : Type} : PriorityQueue T → Nat → List T
  | _, 0 => []
  | q, n + 1 =>
    match q.dequeue with
    | (q2, some x) => x :: PriorityQueue.drainList q2 n
    | (_, none) => []

/-- `n` successive FIFO `Queue.dequeue` results. -/
def Queue.drainList {T : Type} : Queue T → Nat → List T
  | _, 0 => []
  | q, n + 1 =>
    match q.dequeue with
    | (q2, some x) => x :: Queue.drainList q2 n
    | (_, none) => []

/-- A concrete task over `R := Nat` with the given id, priority, creation
time and retry budget; the remaining fields take the dataclass defaults. -/
def mkTask (id : String) (p : TaskPriority) (ca : Nat) (mr : Nat) :
    ExtractionTask Nat :=
  { task_id := id
    station_id := "07630"
    station_name := "Toulouse-Blagnac"
    start_date := "2024-01-01"
    end_date := "2024-01-31"
    source := "toulouse"
    priority := p
    created_at := ca
    status := TaskStatus.pending
    result := none
    error_message := none
    retry_count := 0
    max_retries := mr
    metadata := [] }

/-! ### Generic lemmas about the embedded containers -/

theorem insertSorted_perm {T : Type} (lt : T → T → Bool) (x : T) (l : List T) :
    (insertSorted lt x l).Perm (x :: l) := by
  induction l with
  | nil => simp [insertSorted]
  | cons y ys ih =>
    unfold insertSorted
    by_cases h : lt x y = true
    · simp [h]
    · simp only [h, if_false, Bool.false_eq_true]
      exact (ih.cons y).trans (List.Perm.swap x y ys)

theorem mem_insertSorted {T : Type} (lt : T → T → Bool) (x z : T) (l : List T) :
    z ∈ insertSorted lt x l ↔ z = x ∨ z ∈ l := by
  rw [(insertSorted_perm lt x l).mem_iff]
  simp

theorem insertSorted_append {T : Type} (lt : T → T → Bool) (x : T) (l : List T)
    (h : ∀ y ∈ l, lt x y = false) : insertSorted lt x l = l ++ [x] := by
  induction l with
  | nil => simp [insertSorted]
  | cons y ys ih =>
    have hy : lt x y = false := h y (by simp)
    simp only [insertSorted, hy, Bool.false_eq_true, if_false, List.cons_append,
      List.cons.injEq, true_and]
    exact ih (fun z hz => h z (by simp [hz]))

theorem pq_drainList_eq {T : Type} (n : Nat) (q : PriorityQueue T) :
    q.drainList n = q.items.take n := by
  induction n generalizing q with
  | zero => simp [PriorityQueue.drainList]
  | succ n ih =>
    obtain ⟨items⟩ := q
    cases items with
    | nil => simp [PriorityQueue.drainList, PriorityQueue.dequeue]
    | cons x rest => simp [PriorityQueue.drainList, PriorityQueue.dequeue, ih]

theorem fifo_drainList_eq {T : Type} (n : Nat) (q : Queue T) :
    q.drainList n = q.items.take n := by
  induction n generalizing q with
  | zero => simp [Queue.drainList]
  | succ n ih =>
    obtain ⟨items, ms⟩ := q
    cases items with
    | nil => simp [Queue.drainList, Queue.dequeue]
    | cons x rest => simp [Queue.drainList, Queue.dequeue, ih]

/-! ### Lemmas about the association-list model of Python dicts -/

theorem dictGet_some_pair_mem {α : Type} {k : String} {d : List (String × α)}
    {v : α} (h : dictGet k d = some v) : (k, v) ∈ d := by
  unfold dictGet at h
  cases hf : d.find? (fun p => p.1 == k) with
  | none => rw [hf] at h; exact absurd h (by simp)
  | some p =>
    rw [hf] at h
    have hp := List.find?_some hf
    have hmem := List.mem_of_find?_eq_some hf
    have hk : p.1 = k := by simpa using hp
    have hv : p.2 = v := by simpa using h
    have : p = (k, v) := by
      obtain ⟨p1, p2⟩ := p
      simp_all
    exact this ▸ hmem

theorem dictGet_some_key_mem {α : Type} {k : String} {d : List (String × α)}
    {v : α} (h : dictGet k d = some v) : k ∈ d.map Prod.fst := by
  exact List.mem_map.2 ⟨(k, v), dictGet_some_pair_mem h, rfl⟩

theorem dictContains_iff_mem {α : Type} (k : String) (d : List (String × α)) :
    dictContains k d = true ↔ k ∈ d.map Prod.fst := by
  simp only [dictContains, List.any_eq_true, List.mem_map]
  constructor
  · rintro ⟨p, hp, hk⟩
    exact ⟨p, hp, by simpa using hk⟩
  · rintro ⟨p, hp, hk⟩
    exact ⟨p, hp, by simp [hk]⟩

theorem keys_map_replace {α : Type} (k : String) (v : α) (d : List (String × α)) :
    (d.map (fun p => if p.1 == k then (k, v) else p)).map Prod.fst =
      d.map Prod.fst := by
  rw [List.map_map]
  apply List.map_congr_left
  intro p _
  by_cases h : (p.1 == k) = true
  · simp [Function.comp, h, (eq_of_beq h).symm]
  · simp [Function.comp, h]

theorem dictInsert_keys {α : Type} (k : String) (v : α) (d : List (String × α)) :
    (dictInsert k v d).map Prod.fst =
      if dictContains k d then d.map Prod.fst else d.map Prod.fst ++ [k] := by
  unfold dictInsert
  by_cases h : dictContains k d = true
  · rw [if_pos h, if_pos h, keys_map_replace]
  · rw [if_neg h, if_neg h, List.map_append]
    rfl

theorem dictInsert_keys_fresh {α : Type} (k : String) (v : α)
    (d : List (String × α)) (h : k ∉ d.map Prod.fst) :
    (dictInsert k v d).map Prod.fst = d.map Prod.fst ++ [k] := by
  have hc : dictContains k d = false := by
    cases hc : dictContains k d with
    | false => rfl
    | true => exact absurd ((dictContains_iff_mem k d).1 hc) h
  rw [dictInsert_keys]
  simp [hc]

theorem dictErase_keys {α : Type} (k : String) (d : List (String × α)) :
    (dictErase k d).map Prod.fst = (d.map Prod.fst).erase k := by
  induction d with
  | nil => simp [dictErase]
  | cons p rest ih =>
    by_cases h : (p.1 == k) = true
    · simp [dictErase, h, List.erase_cons, eq_of_beq h]
    · simp [dictErase, h, List.erase_cons, ih]

theorem mem_dictErase {α : Type} {k : String} {d : List (String × α)}
    {p : String × α} (h : p ∈ dictErase k d) : p ∈ d := by
  induction d with
  | nil => simp [dictErase] at h
  | cons x rest ih =>
    unfold dictErase at h
    by_cases hx : (x.1 == k) = true
    · rw [if_pos hx] at h
      exact List.mem_cons_of_mem x h
    · rw [if_neg hx] at h
      rcases List.mem_cons.1 h with h | h
      · exact h ▸ List.mem_cons_self x rest
      · exact List.mem_cons_of_mem x (ih h)

theorem mem_dictInsert {α : Type} {k : String} {v : α} {d : List (String × α)}
    {p : String × α} (h : p ∈ dictInsert k v d) : p = (k, v) ∨ p ∈ d := by
  unfold dictInsert at h
  by_cases hc : dictContains k d = true
  · rw [if_pos hc] at h
    rcases List.mem_map.1 h with ⟨x, hx, hxp⟩
    by_cases hxk : (x.1 == k) = true
    · left; rw [if_pos hxk] at hxp; exact hxp.symm
    · right; rw [if_neg hxk] at hxp; exact hxp ▸ hx
  · rw [if_neg hc] at h
    rcases List.mem_append.1 h with h | h
    · right; exact h
    · left; simpa using h

theorem dictGet_dictInsert_self {α : Type} (k : String) (v : α)
    (d : List (String × α)) : dictGet k (dictInsert k v d) = some v := by
  unfold dictInsert
  by_cases hc : dictContains k d = true
  · rw [if_pos hc]
    unfold dictGet
    induction d with
    | nil => simp [dictContains] at hc
    | cons p rest ih =>
      by_cases hp : (p.1 == k) = true
      · simp [List.find?, hp]
      · have hc2 : dictContains k rest = true := by
          simpa [dictContains, List.any_cons, hp] using hc
        simpa [List.find?, hp] using ih hc2
  · rw [if_neg hc]
    unfold dictGet
    induction d with
    | nil => simp [List.find?]
    | cons p rest ih =>
      have hp : (p.1 == k) = false := by
        cases hp : (p.1 == k) with
        | false => rfl
        | true => exact absurd (by simp [dictContains, List.any_cons, hp]) hc
      have hc2 : ¬ dictContains k rest = true := by
        intro h2
        exact hc (by simp [dictContains, List.any_cons] at h2 ⊢; exact Or.inr h2)
      simpa [List.find?, hp] using ih hc2

theorem pq_foldl_items {T : Type} (lt : T → T → Bool) (xs : List T) :
    ∀ (l0 : List T), (∀ a ∈ xs, ∀ b ∈ l0, lt a b = false) →
      (∀ a ∈ xs, ∀ b ∈ xs, lt a b = false) →
      (xs.foldl (fun q x => PriorityQueue.enqueue lt q x)
        (⟨l0⟩ : PriorityQueue T)).items = l0 ++ xs := by
  induction xs with
  | nil => intro l0 _ _; simp
  | cons x rest ih =>
    intro l0 h0 hall
    have hx : insertSorted lt x l0 = l0 ++ [x] :=
      insertSorted_append lt x l0 (fun y hy => h0 x (by simp) y hy)
    have hstep : PriorityQueue.enqueue lt (⟨l0⟩ : PriorityQueue T) x =
        ⟨l0 ++ [x]⟩ := by
      simp [PriorityQueue.enqueue, hx]
    have h0x : ∀ a ∈ rest, ∀ b ∈ l0 ++ [x], lt a b = false := by
      intro a ha b hb
      rcases List.mem_append.1 hb with hb | hb
      · exact h0 a (by simp [ha]) b hb
      · have hbx : b = x := by simpa using hb
        exact hbx ▸ hall a (by simp [ha]) x (by simp)
    have hallx : ∀ a ∈ rest, ∀ b ∈ rest, lt a b = false := by
      intro a ha b hb
      exact hall a (by simp [ha]) b (by simp [hb])
    calc (List.foldl (fun q x => PriorityQueue.enqueue lt q x) (⟨l0⟩ : PriorityQueue T)
            (x :: rest)).items
        = (List.foldl (fun q x => PriorityQueue.enqueue lt q x)
            (⟨l0 ++ [x]⟩ : PriorityQueue T) rest).items := by
          rw [List.foldl_cons, hstep]
      _ = (l0 ++ [x]) ++ rest := ih (l0 ++ [x]) h0x hallx
      _ = l0 ++ x :: rest := by simp

theorem fifo_foldl_items {T : Type} (xs : List T) :
    ∀ (l0 : List T),
      (xs.foldl (fun q x => (Queue.enqueue q x).1)
        (⟨l0, none⟩ : Queue T)) = ⟨l0 ++ xs, none⟩ := by
  induction xs with
  | nil => intro l0; simp
  | cons x rest ih =>
    intro l0
    have hstep : (Queue.enqueue (⟨l0, none⟩ : Queue T) x).1 = ⟨l0 ++ [x], none⟩ := by
      simp [Queue.enqueue]
    calc List.foldl (fun q x => (Queue.enqueue q x).1) (⟨l0, none⟩ : Queue T)
            (x :: rest)
        = List.foldl (fun q x => (Queue.enqueue q x).1)
            (⟨l0 ++ [x], none⟩ : Queue T) rest := by rw [List.foldl_cons, hstep]
      _ = ⟨(l0 ++ [x]) ++ rest, none⟩ := ih (l0 ++ [x])
      _ = ⟨l0 ++ x :: rest, none⟩ := by simp

/-! ### Claim theorems -/

/-- C8: over any sequence of items whose ordering keys are pairwise equal
(no item compares less than any other), enqueueing into the
`PriorityQueue` and repeatedly dequeuing yields exactly the same output
sequence as enqueueing into the plain FIFO `Queue` and repeatedly
dequeuing: insertion order is preserved, so the priority queue's
tie-break reproduces FIFO semantics among equal priorities. -/
theorem C8_priority_fifo_equiv {T : Type} (lt : T → T → Bool) (xs : List T)
    (h : ∀ a ∈ xs, ∀ b ∈ xs, lt a b = false) :
    (xs.foldl (fun q x => PriorityQueue.enqueue lt q x)
        (⟨[]⟩ : PriorityQueue T)).drainList xs.length =
      (xs.foldl (fun q x => (Queue.enqueue q x).1)
        (⟨[], none⟩ : Queue T)).drainList xs.length ∧
    (xs.foldl (fun q x => PriorityQueue.enqueue lt q x)
        (⟨[]⟩ : PriorityQueue T)).drainList xs.length = xs := by
  have hpq := pq_foldl_items lt xs [] (by intro a _ b hb; simp at hb) h
  have hfq := fifo_foldl_items xs []
  have h1 : (xs.foldl (fun q x => PriorityQueue.enqueue lt q x)
      (⟨[]⟩ : PriorityQueue T)).drainList xs.length = xs := by
    rw [pq_drainList_eq, hpq]
    simp
  have h2 : (xs.foldl (fun q x => (Queue.enqueue q x).1)
      (⟨[], none⟩ : Queue T)).drainList xs.length = xs := by
    rw [fifo_drainList_eq, hfq]
    simp
  exact ⟨h1.trans h2.symm, h1⟩

/-- Witness for C8 at a concrete three-element sequence with an
everywhere-false comparison. -/
theorem C8_priority_fifo_equiv_witness :
    (∀ a ∈ [10, 20, 30], ∀ b ∈ [10, 20, 30], (fun (_ _ : Nat) => false) a b = false) ∧
    ([10, 20, 30].foldl (fun q x => PriorityQueue.enqueue (fun _ _ => false) q x)
        (⟨[]⟩ : PriorityQueue Nat)).drainList 3 = [10, 20, 30] :=
  ⟨by decide,
   (C8_priority_fifo_equiv (fun _ _ => false) [10, 20, 30] (by decide)).2⟩

/-- C10: for the FIFO `Queue` with capacity `m`, `enqueue` on a full
queue returns `false` and leaves the contents unchanged, otherwise it
appends at the back and returns `true`; `is_full` is `true` exactly when
a capacity is set and reached, so a queue without capacity is never full
and its `enqueue` always succeeds. -/
theorem C10_fifo_capacity {T : Type} (q : Queue T) (x : T) (m : Nat) :
    (q.max_size = some m → m ≤ q.items.length → q.enqueue x = (q, false)) ∧
    (q.max_size = some m → q.items.length < m →
      q.enqueue x = ({ q with items := q.items ++ [x] }, true)) ∧
    (q.is_full = true ↔ ∃ k, q.max_size = some k ∧ k ≤ q.items.length) ∧
    (q.max_size = none → q.is_full = false ∧
      q.enqueue x = ({ q with items := q.items ++ [x] }, true)) := by
  refine ⟨?_, ?_, ?_, ?_⟩
  · intro hm hlen
    simp [Queue.enqueue, hm, hlen]
  · intro hm hlen
    simp [Queue.enqueue, hm, Nat.not_le.2 hlen]
  · cases hm : q.max_size with
    | none => simp [Queue.is_full, hm]
    | some k => simp [Queue.is_full, hm]
  · intro hm
    simp [Queue.is_full, Queue.enqueue, hm]

/-- Witness for C10: a full capacity-2 queue rejects, a non-full one
appends, a capacity-free queue is never full. -/
theorem C10_fifo_capacity_witness :
    ((⟨[6, 7], some 2⟩ : Queue Nat).max_size = some 2 ∧ 2 ≤ 2) ∧
    (⟨[6, 7], some 2⟩ : Queue Nat).enqueue 9 = (⟨[6, 7], some 2⟩, false) ∧
    (⟨[6], some 2⟩ : Queue Nat).enqueue 9 = (⟨[6, 9], some 2⟩, true) ∧
    (⟨[6], none⟩ : Queue Nat).is_full = false :=
  ⟨⟨rfl, by decide⟩,
   (C10_fifo_capacity (⟨[6, 7], some 2⟩ : Queue Nat) 9 2).1 rfl (by decide),
   (C10_fifo_capacity (⟨[6], some 2⟩ : Queue Nat) 9 2).2.1 rfl (by decide),
   ((C10_fifo_capacity (⟨[6], none⟩ : Queue Nat) 9 0).2.2.2 rfl).1⟩

/-- C6: `complete_task` or `fail_task` on an id that is not in the
processing map returns `false` and leaves the queue state (all four
collections) unchanged; `add_task` on a task whose status is not PENDING
likewise returns `false` and changes nothing. No exception is modelled:
every outcome is a boolean result. -/
theorem C6_invalid_transition_rejected {R : Type} (q : ExtractionQueue R)
    (id msg : String) (r : R) (retry : Bool) (t : ExtractionTask R)
    (hid : dictGet id q.processing_tasks = none)
    (hts : t.status ≠ TaskStatus.pending) :
    q.complete_task id r = (q, false) ∧
    q.fail_task id msg retry = (q, false) ∧
    q.add_task t = (q, false) := by
  refine ⟨?_, ?_, ?_⟩
  · simp [ExtractionQueue.complete_task, hid]
  · simp [ExtractionQueue.fail_task, hid]
  · simp [ExtractionQueue.add_task, hts]

/-- Witness for C6: an empty processing map and a PROCESSING-status task. -/
theorem C6_invalid_transition_rejected_witness :
    (dictGet "z" (ExtractionQueue.empty : ExtractionQueue Nat).processing_tasks
        = none) ∧
    (ExtractionQueue.empty : ExtractionQueue Nat).complete_task "z" 5
        = (ExtractionQueue.empty, false) ∧
    (ExtractionQueue.empty : ExtractionQueue Nat).add_task
        { mkTask "w" TaskPriority.normal 0 3 with status := TaskStatus.processing }
        = (ExtractionQueue.empty, false) :=
  ⟨by decide,
   (C6_invalid_transition_rejected ExtractionQueue.empty "z" "m" 5 true
      { mkTask "w" TaskPriority.normal 0 3 with status := TaskStatus.processing }
      (by decide) (by decide)).1,
   (C6_invalid_transition_rejected ExtractionQueue.empty "z" "m" 5 true
      { mkTask "w" TaskPriority.normal 0 3 with status := TaskStatus.processing }
      (by decide) (by decide)).2.2⟩

/-- C7: completing a task that is currently processing returns `true`
and a subsequent `get_task_result` on its id returns exactly the
submitted result; `get_task_result` on an id that was never completed
returns the not-found sentinel `none`. -/
theorem C7_complete_result_roundtrip {R : Type} (q q2 : ExtractionQueue R)
    (id id2 : String) (r : R) (t : ExtractionTask R)
    (hid : dictGet id q.processing_tasks = some t)
    (hnc : dictGet id2 q2.completed_tasks = none) :
    (q.complete_task id r).2 = true ∧
    (q.complete_task id r).1.get_task_result id = some r ∧
    q2.get_task_result id2 = none := by
  refine ⟨?_, ?_, ?_⟩
  · simp [ExtractionQueue.complete_task, hid]
  · simp [ExtractionQueue.complete_task, hid, ExtractionQueue.get_task_result,
      dictGet_dictInsert_self]
  · simp [ExtractionQueue.get_task_result, hnc]

/-- Witness for C7: a queue with one processing task, completed with
result 42. -/
theorem C7_complete_result_roundtrip_witness :
    (dictGet "a" [("a", mkTask "a" TaskPriority.normal 0 3)]
        = some (mkTask "a" TaskPriority.normal 0 3)) ∧
    ((⟨⟨[]⟩, [], [], [("a", mkTask "a" TaskPriority.normal 0 3)]⟩ :
        ExtractionQueue Nat).complete_task "a" 42).2 = true ∧
    ((⟨⟨[]⟩, [], [], [("a", mkTask "a" TaskPriority.normal 0 3)]⟩ :
        ExtractionQueue Nat).complete_task "a" 42).1.get_task_result "a"
        = some 42 :=
  ⟨by decide,
   (C7_complete_result_roundtrip
      ⟨⟨[]⟩, [], [], [("a", mkTask "a" TaskPriority.normal 0 3)]⟩
      ExtractionQueue.empty "a" "z" 42 (mkTask "a" TaskPriority.normal 0 3)
      (by decide) (by decide)).1,
   (C7_complete_result_roundtrip
      ⟨⟨[]⟩, [], [], [("a", mkTask "a" TaskPriority.normal 0 3)]⟩
      ExtractionQueue.empty "a" "z" 42 (mkTask "a" TaskPriority.normal 0 3)
      (by decide) (by decide)).2.1⟩

/-! ### The ordering relation of `ExtractionTask.__lt__` -/

theorem lt_eq_keyLt {R : Type} (a b : ExtractionTask R) :
    ExtractionTask.lt a b = keyLt (taskKey a) (taskKey b) := rfl

theorem keyLt_false_iff (p q : Nat × Nat) : keyLt p q = false ↔ keyLe q p := by
  unfold keyLt keyLe
  by_cases h : p.1 = q.1 <;> simp [h] <;> omega

theorem keyLt_true_keyLe {p q : Nat × Nat} (h : keyLt p q = true) : keyLe p q := by
  unfold keyLt at h
  unfold keyLe
  by_cases h1 : p.1 = q.1 <;> simp [h1] at h ⊢ <;> omega

theorem keyLe_trans {p q r : Nat × Nat} (h1 : keyLe p q) (h2 : keyLe q r) :
    keyLe p r := by
  unfold keyLe at h1 h2 ⊢
  omega

theorem pairwise_insertSorted {T : Type} (lt : T → T → Bool) (le : T → T → Prop)
    (hf : ∀ a b, lt a b = false → le b a)
    (ht : ∀ a b, lt a b = true → le a b)
    (htr : ∀ a b c, le a b → le b c → le a c)
    (x : T) (l : List T) (h : l.Pairwise le) :
    (insertSorted lt x l).Pairwise le := by
  induction l with
  | nil => simp [insertSorted]
  | cons y ys ih =>
    rcases List.pairwise_cons.1 h with ⟨hy, hys⟩
    unfold insertSorted
    by_cases hxy : lt x y = true
    · rw [if_pos hxy]
      refine List.pairwise_cons.2 ⟨?_, h⟩
      intro z hz
      rcases List.mem_cons.1 hz with hz | hz
      · exact hz ▸ ht _ _ hxy
      · exact htr _ _ _ (ht _ _ hxy) (hy z hz)
    · rw [if_neg hxy]
      have hxy2 : lt x y = false := by
        cases hv : lt x y with
        | false => rfl
        | true => exact absurd hv hxy
      refine List.pairwise_cons.2 ⟨?_, ih hys⟩
      intro z hz
      rcases (mem_insertSorted lt x z ys).1 hz with hz | hz
      · exact hz ▸ hf _ _ hxy2
      · exact hy z hz

theorem addAll_sorted {R : Type} (ts : List (ExtractionTask R)) :
    ∀ (q : ExtractionQueue R), q.tasks_queue.items.Pairwise taskLe →
      ((addAll q ts).tasks_queue.items).Pairwise taskLe := by
  induction ts with
  | nil => intro q h; exact h
  | cons t ts ih =>
    intro q h
    have hstep : ((q.add_task t).1.tasks_queue.items).Pairwise taskLe := by
      unfold ExtractionQueue.add_task
      by_cases hs : t.status ≠ TaskStatus.pending
      · rw [if_pos hs]
        exact h
      · rw [if_neg hs]
        refine pairwise_insertSorted ExtractionTask.lt taskLe ?_ ?_ ?_ t _ h
        · intro a b hab
          rw [lt_eq_keyLt] at hab
          exact (keyLt_false_iff _ _).1 hab
        · intro a b hab
          rw [lt_eq_keyLt] at hab
          exact keyLt_true_keyLe hab
        · intro a b c
          exact keyLe_trans
    have : addAll q (t :: ts) = addAll (q.add_task t).1 ts := by
      simp [addAll]
    rw [this]
    exact ih _ hstep

theorem drainTasks_eq {R : Type} (n : Nat) (q : ExtractionQueue R) :
    drainTasks q n =
      (q.tasks_queue.items.take n).map
        (fun t => { t with status := TaskStatus.processing }) := by
  induction n generalizing q with
  | zero => simp [drainTasks]
  | succ n ih =>
    obtain ⟨⟨items⟩, c, f, pr⟩ := q
    cases items with
    | nil =>
      simp [drainTasks, ExtractionQueue.get_next_task, PriorityQueue.dequeue]
    | cons t rest =>
      simp [drainTasks, ExtractionQueue.get_next_task, PriorityQueue.dequeue, ih]

/-- C1: starting from an empty `ExtractionQueue`, after any sequence of
`add_task` calls on PENDING tasks with distinct ids, successive
`get_next_task` calls return the tasks in non-decreasing priority-value
order, ties in non-decreasing `created_at` order (the pairwise `keyLe`
relation on ordering keys); in particular adding three tasks with
priorities LOW, URGENT, NORMAL in that insertion order makes the next
three `get_next_task` calls return them in the order URGENT, NORMAL,
LOW. -/
theorem C1_priority_order {R : Type} (ts : List (ExtractionTask R)) (n : Nat)
    (hst : ∀ t ∈ ts, t.status = TaskStatus.pending)
    (hids : (ts.map (fun t => t.task_id)).Nodup) :
    ((drainTasks (addAll ExtractionQueue.empty ts) n).Pairwise
        (fun a b => keyLe (taskKey a) (taskKey b))) ∧
    ((drainTasks (addAll ExtractionQueue.empty
        [mkTask "low" TaskPriority.low 0 3, mkTask "urg" TaskPriority.urgent 1 3,
         mkTask "nor" TaskPriority.normal 2 3]) 3).map (fun t => t.task_id)
      = ["urg", "nor", "low"]) := by
  constructor
  · have hsorted : ((addAll (ExtractionQueue.empty : ExtractionQueue R)
        ts).tasks_queue.items).Pairwise taskLe := by
      refine addAll_sorted ts ExtractionQueue.empty ?_
      simp [ExtractionQueue.empty]
    rw [drainTasks_eq]
    rw [List.pairwise_map]
    exact (hsorted.sublist (List.take_sublist n _))
  · decide

/-- Witness for C1 at the three-task scenario itself. -/
theorem C1_priority_order_witness :
    (∀ t ∈ [mkTask "low" TaskPriority.low 0 3, mkTask "urg" TaskPriority.urgent 1 3,
        mkTask "nor" TaskPriority.normal 2 3], t.status = TaskStatus.pending) ∧
    ((drainTasks (addAll ExtractionQueue.empty
        [mkTask "low" TaskPriority.low 0 3, mkTask "urg" TaskPriority.urgent 1 3,
         mkTask "nor" TaskPriority.normal 2 3]) 3).Pairwise
        (fun a b => keyLe (taskKey a) (taskKey b))) :=
  ⟨by decide,
   (C1_priority_order
      [mkTask "low" TaskPriority.low 0 3, mkTask "urg" TaskPriority.urgent 1 3,
       mkTask "nor" TaskPriority.normal 2 3] 3 (by decide) (by decide)).1⟩

/-- C5: a task failed with `retry=True` re-enters the priority queue
ordered by its original `created_at` (no operation modifies that field)
and its original priority tier: for two equal-priority tasks `a`, `b`
with `a` created earlier, after add `a`, add `b`, dequeue `a`, fail `a`
with retry, the next `get_next_task` returns `a` again (with only
`status`, `retry_count`, `error_message` changed), not `b`. -/
theorem C5_retry_keeps_created_at {R : Type} (a b : ExtractionTask R)
    (msg : String)
    (hpr : a.priority = b.priority) (hca : a.created_at < b.created_at)
    (hsa : a.status = TaskStatus.pending) (hsb : b.status = TaskStatus.pending)
    (hid : a.task_id ≠ b.task_id) (hrc : a.retry_count = 0)
    (hmr : 2 ≤ a.max_retries) :
    (((ExtractionQueue.empty.add_task a).1.add_task b).1.get_next_task.2
        = some { a with status := TaskStatus.processing }) ∧
    ((((ExtractionQueue.empty.add_task a).1.add_task b).1.get_next_task.1.fail_task
        a.task_id msg true).2 = true) ∧
    (((((ExtractionQueue.empty.add_task a).1.add_task b).1.get_next_task.1.fail_task
        a.task_id msg true).1.get_next_task.2)
        = some { a with
                 status := TaskStatus.processing
                 retry_count := 1
                 error_message := some msg }) := by
  have hlt_ba : ExtractionTask.lt b a = false := by
    simp [ExtractionTask.lt, hpr]
    omega
  have hlt_gen : ∀ (t : ExtractionTask R), t.priority = a.priority →
      t.created_at = a.created_at → ExtractionTask.lt t b = true := by
    intro t h1 h2
    simp [ExtractionTask.lt, h1, h2, hpr]
    omega
  have hcond : 0 + 1 < a.max_retries := by omega
  refine ⟨?_, ?_, ?_⟩ <;>
    simp [ExtractionQueue.add_task, ExtractionQueue.get_next_task,
      ExtractionQueue.fail_task, ExtractionQueue.empty, PriorityQueue.enqueue,
      PriorityQueue.dequeue, insertSorted, dictInsert, dictContains, dictGet,
      dictErase, List.find?, hsa, hsb, hlt_ba, hcond, hrc, hlt_gen]

/-- Witness for C5: two concrete equal-priority tasks, the earlier one
failed and retried between the dequeues. -/
theorem C5_retry_keeps_created_at_witness :
    ((mkTask "a" TaskPriority.normal 5 3).priority
        = (mkTask "b" TaskPriority.normal 9 3).priority) ∧
    (((((ExtractionQueue.empty.add_task (mkTask "a" TaskPriority.normal 5 3)).1.add_task
          (mkTask "b" TaskPriority.normal 9 3)).1.get_next_task.1.fail_task
        "a" "boom" true).1.get_next_task.2)
        = some { (mkTask "a" TaskPriority.normal 5 3) with
                 status := TaskStatus.processing, retry_count := 1,
                 error_message := some "boom" }) :=
  ⟨rfl,
   (C5_retry_keeps_created_at (mkTask "a" TaskPriority.normal 5 3)
      (mkTask "b" TaskPriority.normal 9 3) "boom" rfl (by decide) rfl rfl
      (by decide) rfl (by decide)).2.2⟩

theorem failRun_succ {R : Type} (q : ExtractionQueue R) (id msg : String)
    (n : Nat) :
    failRun q id msg (n + 1) =
      ((failRun (attemptAndFail q id msg).1 id msg n).1,
       (attemptAndFail q id msg).2 ::
         (failRun (attemptAndFail q id msg).1 id msg n).2) := rfl

/-- The state reached while the single task `u` sits alone in the
pending queue: one round of `attemptAndFail` per remaining retry. The
key retry-loop lemma: with `max_retries = retry_count + (k + 1)`, the
loop returns `true` `k` times, then `false`, and ends with the task in
the failed map with `retry_count = max_retries`. -/
theorem failRun_solo {R : Type} (msg : String) (k : Nat) :
    ∀ (u : ExtractionTask R), u.max_retries = u.retry_count + (k + 1) →
      failRun (⟨⟨[u]⟩, [], [], []⟩ : ExtractionQueue R) u.task_id msg (k + 1) =
        (⟨⟨[]⟩, [],
            [(u.task_id, { u with
                status := TaskStatus.failed
                retry_count := u.max_retries
                error_message := some msg })], []⟩,
         List.replicate k true ++ [false]) := by
  induction k with
  | zero =>
    intro u hmr
    have hcond : ¬ (u.retry_count + 1 < u.max_retries) := by omega
    simp [failRun, attemptAndFail, ExtractionQueue.get_next_task,
      PriorityQueue.dequeue, ExtractionQueue.fail_task, dictGet, dictInsert,
      dictContains, dictErase, List.find?, hcond, hmr]
  | succ k ih =>
    intro u hmr
    have hcond : u.retry_count + 1 < u.max_retries := by omega
    have hstep : attemptAndFail (⟨⟨[u]⟩, [], [], []⟩ : ExtractionQueue R)
        u.task_id msg =
        (⟨⟨[{ u with
              status := TaskStatus.pending
              retry_count := u.retry_count + 1
              error_message := some msg }]⟩, [], [], []⟩, true) := by
      simp [attemptAndFail, ExtractionQueue.get_next_task, PriorityQueue.dequeue,
        ExtractionQueue.fail_task, dictGet, dictInsert, dictContains, dictErase,
        List.find?, hcond, PriorityQueue.enqueue, insertSorted]
    have hrec : failRun (⟨⟨[{ u with
          status := TaskStatus.pending
          retry_count := u.retry_count + 1
          error_message := some msg }]⟩, [], [], []⟩ : ExtractionQueue R)
        u.task_id msg (k + 1) =
        (⟨⟨[]⟩, [],
            [(u.task_id, { u with
                status := TaskStatus.failed
                retry_count := u.max_retries
                error_message := some msg })], []⟩,
         List.replicate k true ++ [false]) := by
      have h0 := ih { u with
          status := TaskStatus.pending
          retry_count := u.retry_count + 1
          error_message := some msg } (by simp; omega)
      simpa using h0
    rw [failRun_succ]
    simp only [hstep]
    rw [hrec]
    simp [List.replicate_succ]

/-- C3 counterexample: the claim fails already at `max_retries = 1`.
The claim says the first `N = 1` failures return `true` and the task
only becomes FAILED on the `(N+1) = 2`-nd failure; the code returns
`false` on the very first failure (the post-increment counter `1` is
not `< 1`) and the task is FAILED after one attempt. -/
theorem C3_counterexample :
    (mkTask "t" TaskPriority.normal 0 1).max_retries = 1 ∧
    (failRun (ExtractionQueue.empty.add_task (mkTask "t" TaskPriority.normal 0 1)).1
        "t" "boom" 1).2 ≠ [true] ∧
    (failRun (ExtractionQueue.empty.add_task (mkTask "t" TaskPriority.normal 0 1)).1
        "t" "boom" 1).2 = [false] ∧
    dictGet "t" (failRun
        (ExtractionQueue.empty.add_task (mkTask "t" TaskPriority.normal 0 1)).1
        "t" "boom" 1).1.failed_tasks
      = some { (mkTask "t" TaskPriority.normal 0 1) with
               status := TaskStatus.failed
               retry_count := 1
               error_message := some "boom" } := by
  refine ⟨rfl, by decide, by decide, by decide⟩

/-- C3 amended: for a task with `max_retries = N ≥ 1` that is repeatedly
dequeued and failed with `retry=True`, the task transitions to terminal
FAILED status exactly when the N-th failure occurs; `fail_task` returns
`true` for each of the first N−1 failures and `false` on the N-th, i.e.
the task is attempted N times in total (not N+1 as the claim stated). -/
theorem C3_amended_retry_budget {R : Type} (t : ExtractionTask R) (msg : String)
    (N : Nat) (h1 : t.status = TaskStatus.pending) (h2 : t.retry_count = 0)
    (h3 : t.max_retries = N) (h4 : 1 ≤ N) :
    (failRun (ExtractionQueue.empty.add_task t).1 t.task_id msg N).2
      = List.replicate (N - 1) true ++ [false] ∧
    dictGet t.task_id
        (failRun (ExtractionQueue.empty.add_task t).1 t.task_id msg N).1.failed_tasks
      = some { t with
               status := TaskStatus.failed
               retry_count := N
               error_message := some msg } := by
  obtain ⟨k, rfl⟩ : ∃ k, N = k + 1 := ⟨N - 1, by omega⟩
  have hq : (ExtractionQueue.empty.add_task t).1 =
      (⟨⟨[t]⟩, [], [], []⟩ : ExtractionQueue R) := by
    simp [ExtractionQueue.add_task, h1, PriorityQueue.enqueue, insertSorted,
      ExtractionQueue.empty]
  rw [hq, failRun_solo msg k t (by omega)]
  constructor
  · simp
  · simp [dictGet, List.find?, h3, h2]

/-- Witness for C3 amended at `N = 3`: results `[true, true, false]`. -/
theorem C3_amended_retry_budget_witness :
    (failRun (ExtractionQueue.empty.add_task (mkTask "t" TaskPriority.normal 0 3)).1
        "t" "boom" 3).2 = [true, true, false] := by
  have h := (C3_amended_retry_budget (mkTask "t" TaskPriority.normal 0 3) "boom" 3
      rfl rfl rfl (by decide)).1
  simpa using h

/-- C4: for a task with `max_retries = 2` added, dequeued and failed
with retry, then dequeued and failed with retry again: the first
`fail_task` returns `true` and the task re-enters the pending queue with
status PENDING and `retry_count = 1`; the second returns `false` and the
task enters the failed map with status FAILED and `retry_count = 2`;
`get_stats` afterwards reports `failed = 1` and `pending = 0`. -/
theorem C4_two_retries_scenario :
    (attemptAndFail
        (ExtractionQueue.empty.add_task (mkTask "t" TaskPriority.normal 0 2)).1
        "t" "boom").2 = true ∧
    (attemptAndFail
        (ExtractionQueue.empty.add_task (mkTask "t" TaskPriority.normal 0 2)).1
        "t" "boom").1.tasks_queue.items
      = [{ (mkTask "t" TaskPriority.normal 0 2) with
           status := TaskStatus.pending
           retry_count := 1
           error_message := some "boom" }] ∧
    (attemptAndFail (attemptAndFail
        (ExtractionQueue.empty.add_task (mkTask "t" TaskPriority.normal 0 2)).1
        "t" "boom").1 "t" "crash").2 = false ∧
    dictGet "t" (attemptAndFail (attemptAndFail
        (ExtractionQueue.empty.add_task (mkTask "t" TaskPriority.normal 0 2)).1
        "t" "boom").1 "t" "crash").1.failed_tasks
      = some { (mkTask "t" TaskPriority.normal 0 2) with
               status := TaskStatus.failed
               retry_count := 2
               error_message := some "crash" } ∧
    (attemptAndFail (attemptAndFail
        (ExtractionQueue.empty.add_task (mkTask "t" TaskPriority.normal 0 2)).1
        "t" "boom").1 "t" "crash").1.get_stats.failed = 1 ∧
    (attemptAndFail (attemptAndFail
        (ExtractionQueue.empty.add_task (mkTask "t" TaskPriority.normal 0 2)).1
        "t" "boom").1 "t" "crash").1.get_stats.pending = 0 := by
  refine ⟨by decide, by decide, by decide, by decide, by decide, by decide⟩

/-- C9: frame conditions of the three mutating operations, stated as
record updates of the original task: `get_next_task` changes only
`status`; `complete_task` changes only `status` and `result` (so a task
completed after earlier failed attempts keeps its non-zero `retry_count`
and its last `error_message`); `fail_task` changes only `status`,
`retry_count` and `error_message`, in both the retry branch (where the
task re-enters the priority queue) and the terminal branch. All other
fields — `task_id`, `station_id`, `station_name`, `start_date`,
`end_date`, `source`, `priority`, `created_at`, `max_retries`,
`metadata` — are untouched. -/
theorem C9_frame_conditions {R : Type} (q : ExtractionQueue R)
    (hd t : ExtractionTask R) (id msg : String) (r : R)
    (hhead : q.tasks_queue.items.head? = some hd)
    (hproc : dictGet id q.processing_tasks = some t) :
    q.get_next_task.2 = some { hd with status := TaskStatus.processing } ∧
    dictGet id (q.complete_task id r).1.completed_tasks
      = some { t with status := TaskStatus.completed, result := some r } ∧
    (t.retry_count + 1 < t.max_retries →
      (q.fail_task id msg true).1.tasks_queue.items
        = insertSorted ExtractionTask.lt
            { t with
              status := TaskStatus.pending
              retry_count := t.retry_count + 1
              error_message := some msg } q.tasks_queue.items) ∧
    (¬ t.retry_count + 1 < t.max_retries →
      dictGet id (q.fail_task id msg true).1.failed_tasks
        = some { t with
                 status := TaskStatus.failed
                 retry_count := t.retry_count + 1
                 error_message := some msg }) := by
  refine ⟨?_, ?_, ?_, ?_⟩
  · obtain ⟨⟨items⟩, c, f, pr⟩ := q
    cases items with
    | nil => simp at hhead
    | cons x rest =>
      have hx : x = hd := by simpa using hhead
      subst hx
      simp [ExtractionQueue.get_next_task, PriorityQueue.dequeue]
  · simp [ExtractionQueue.complete_task, hproc, dictGet_dictInsert_self]
  · intro hc
    simp [ExtractionQueue.fail_task, hproc, hc, PriorityQueue.enqueue]
  · intro hc
    simp [ExtractionQueue.fail_task, hproc, hc, dictGet_dictInsert_self]

/-- Witness for C9: a queue with one pending and one processing task;
the processing one is completed (and, in the retry branch, failed). -/
theorem C9_frame_conditions_witness :
    ((⟨⟨[mkTask "p" TaskPriority.high 4 3]⟩, [], [],
        [("a", { (mkTask "a" TaskPriority.normal 0 3) with
                 status := TaskStatus.processing })]⟩ :
        ExtractionQueue Nat).tasks_queue.items.head?
      = some (mkTask "p" TaskPriority.high 4 3)) ∧
    ((⟨⟨[mkTask "p" TaskPriority.high 4 3]⟩, [], [],
        [("a", { (mkTask "a" TaskPriority.normal 0 3) with
                 status := TaskStatus.processing })]⟩ :
        ExtractionQueue Nat).get_next_task.2
      = some { (mkTask "p" TaskPriority.high 4 3) with
               status := TaskStatus.processing }) ∧
    dictGet "a" ((⟨⟨[mkTask "p" TaskPriority.high 4 3]⟩, [], [],
        [("a", { (mkTask "a" TaskPriority.normal 0 3) with
                 status := TaskStatus.processing })]⟩ :
        ExtractionQueue Nat).complete_task "a" 42).1.completed_tasks
      = some { (mkTask "a" TaskPriority.normal 0 3) with
               status := TaskStatus.completed, result := some 42 } :=
  ⟨rfl,
   (C9_frame_conditions
      ⟨⟨[mkTask "p" TaskPriority.high 4 3]⟩, [], [],
        [("a", { (mkTask "a" TaskPriority.normal 0 3) with
                 status := TaskStatus.processing })]⟩
      (mkTask "p" TaskPriority.high 4 3)
      { (mkTask "a" TaskPriority.normal 0 3) with
        status := TaskStatus.processing }
      "a" "boom" 42 rfl (by decide)).1,
   by
     have h := (C9_frame_conditions
        ⟨⟨[mkTask "p" TaskPriority.high 4 3]⟩, [], [],
          [("a", { (mkTask "a" TaskPriority.normal 0 3) with
                   status := TaskStatus.processing })]⟩
        (mkTask "p" TaskPriority.high 4 3)
        { (mkTask "a" TaskPriority.normal 0 3) with
          status := TaskStatus.processing }
        "a" "boom" 42 rfl (by decide)).2.1
     simpa using h⟩

/-! ### The partition invariant of the `ExtractionQueue` -/

theorem allIds_stepOp_perm {R : Type} (q : ExtractionQueue R) (op : QOp R)
    (hnd : (allIds q).Nodup) (hpc : procConsistent q)
    (hv : validOp q op = true) (hnc : op ≠ QOp.clearAll) :
    (allIds (stepOp q op)).Perm (opIds op ++ allIds q) := by
  cases op with
  | clearAll => exact absurd rfl hnc
  | add t =>
    have hv2 : t.status = TaskStatus.pending ∧ t.task_id ∉ allIds q := by
      simpa [validOp] using hv
    have hstep : stepOp q (QOp.add t) =
        { q with tasks_queue := q.tasks_queue.enqueue ExtractionTask.lt t } := by
      simp [stepOp, ExtractionQueue.add_task, hv2.1]
    rw [hstep]
    have hperm : ((insertSorted ExtractionTask.lt t q.tasks_queue.items).map
          (fun u => u.task_id)).Perm
        (t.task_id :: q.tasks_queue.items.map (fun u => u.task_id)) := by
      simpa using (insertSorted_perm ExtractionTask.lt t q.tasks_queue.items).map
        (fun u => u.task_id)
    simp only [allIds, pendingIds, opIds, PriorityQueue.enqueue]
    simpa using ((hperm.append_right _).append_right _).append_right _
  | next =>
    obtain ⟨⟨items⟩, c, f, pr⟩ := q
    cases items with
    | nil =>
      simp only [stepOp, ExtractionQueue.get_next_task, PriorityQueue.dequeue,
        opIds, List.nil_append]
      exact List.Perm.refl _
    | cons t rest =>
      have hfresh : t.task_id ∉ pr.map Prod.fst := by
        intro hmem
        have h1 : 0 < List.count t.task_id (pr.map Prod.fst) :=
          List.count_pos_iff.2 hmem
        have h2 := List.nodup_iff_count_le_one.1 hnd t.task_id
        simp [allIds, pendingIds, List.count_append, List.count_cons] at h2
        omega
      have hkeys : (dictInsert t.task_id
            { t with status := TaskStatus.processing } pr).map Prod.fst =
          pr.map Prod.fst ++ [t.task_id] :=
        dictInsert_keys_fresh _ _ _ hfresh
      simp only [stepOp, ExtractionQueue.get_next_task, PriorityQueue.dequeue,
        allIds, pendingIds, opIds]
      rw [List.perm_iff_count]
      intro x
      rw [hkeys]
      simp only [List.map_cons, List.count_append, List.count_cons,
        List.count_nil, List.nil_append]
      by_cases hx : t.task_id = x
      · subst hx; simp; omega
      · have hbx : (t.task_id == x) = false := by simpa using hx
        simp [hbx]
  | complete i r =>
    cases hget : dictGet i q.processing_tasks with
    | none =>
      have hstate : stepOp q (QOp.complete i r) = q := by
        simp [stepOp, ExtractionQueue.complete_task, hget]
      rw [hstate]
      simp only [opIds, List.nil_append]
      exact List.Perm.refl _
    | some t =>
      have hmemP : i ∈ q.processing_tasks.map Prod.fst := dictGet_some_key_mem hget
      have hcntP : 0 < List.count i (q.processing_tasks.map Prod.fst) :=
        List.count_pos_iff.2 hmemP
      have hcnt1 := List.nodup_iff_count_le_one.1 hnd i
      have hnotC : i ∉ q.completed_tasks.map Prod.fst := by
        intro hmem
        have h3 : 0 < List.count i (q.completed_tasks.map Prod.fst) :=
          List.count_pos_iff.2 hmem
        simp [allIds, pendingIds, List.count_append] at hcnt1
        omega
      have hstate : stepOp q (QOp.complete i r) = { q with
          processing_tasks := dictErase i q.processing_tasks
          completed_tasks := dictInsert i
            { t with status := TaskStatus.completed, result := some r }
            q.completed_tasks } := by
        simp [stepOp, ExtractionQueue.complete_task, hget]
      rw [hstate]
      have hkeys := dictInsert_keys_fresh i
        { t with status := TaskStatus.completed, result := some r }
        q.completed_tasks hnotC
      simp only [allIds, pendingIds, opIds]
      rw [List.perm_iff_count]
      intro x
      rw [hkeys, dictErase_keys]
      simp only [List.count_append, List.count_cons, List.count_nil,
        List.nil_append, List.count_erase]
      by_cases hx : i = x
      · subst hx; simp only [beq_self_eq_true, if_true]; omega
      · have hbx : (i == x) = false := by simpa using hx
        simp [hbx]
  | fail i m b =>
    cases hget : dictGet i q.processing_tasks with
    | none =>
      have hstate : stepOp q (QOp.fail i m b) = q := by
        simp [stepOp, ExtractionQueue.fail_task, hget]
      rw [hstate]
      simp only [opIds, List.nil_append]
      exact List.Perm.refl _
    | some t =>
      have hti : t.task_id = i := hpc (i, t) (dictGet_some_pair_mem hget)
      have hmemP : i ∈ q.processing_tasks.map Prod.fst := dictGet_some_key_mem hget
      have hcntP : 0 < List.count i (q.processing_tasks.map Prod.fst) :=
        List.count_pos_iff.2 hmemP
      have hcnt1 := List.nodup_iff_count_le_one.1 hnd i
      by_cases hb : b = true ∧ t.retry_count + 1 < t.max_retries
      · have hstate : stepOp q (QOp.fail i m b) = { q with
            tasks_queue := q.tasks_queue.enqueue ExtractionTask.lt
              { t with
                status := TaskStatus.pending
                retry_count := t.retry_count + 1
                error_message := some m }
            processing_tasks := dictErase i q.processing_tasks } := by
          simp [stepOp, ExtractionQueue.fail_task, hget, hb]
        rw [hstate]
        have hpend : ∀ x : String, List.count x
            ((insertSorted ExtractionTask.lt
              { t with
                status := TaskStatus.pending
                retry_count := t.retry_count + 1
                error_message := some m } q.tasks_queue.items).map
              (fun u => u.task_id)) =
            List.count x (q.tasks_queue.items.map (fun u => u.task_id)) +
              (if (i == x) = true then 1 else 0) := by
          intro x
          have hp := ((insertSorted_perm ExtractionTask.lt
            { t with
              status := TaskStatus.pending
              retry_count := t.retry_count + 1
              error_message := some m } q.tasks_queue.items).map
              (fun u => u.task_id)).count_eq x
          rw [hp]
          simp [List.count_cons, hti]
        simp only [allIds, pendingIds, opIds, PriorityQueue.enqueue]
        rw [List.perm_iff_count]
        intro x
        rw [dictErase_keys]
        simp only [List.count_append, List.count_cons, List.count_nil,
          List.nil_append, List.count_erase, hpend x]
        by_cases hx : i = x
        · subst hx; simp only [beq_self_eq_true, if_true]; omega
        · have hbx : (i == x) = false := by simpa using hx
          simp [hbx]
      · have hnotF : i ∉ q.failed_tasks.map Prod.fst := by
          intro hmem
          have h3 : 0 < List.count i (q.failed_tasks.map Prod.fst) :=
            List.count_pos_iff.2 hmem
          simp [allIds, pendingIds, List.count_append] at hcnt1
          omega
        have hstate : stepOp q (QOp.fail i m b) = { q with
            failed_tasks := dictInsert i
              { t with
                status := TaskStatus.failed
                retry_count := t.retry_count + 1
                error_message := some m } q.failed_tasks
            processing_tasks := dictErase i q.processing_tasks } := by
          simp [stepOp, ExtractionQueue.fail_task, hget, hb]
        rw [hstate]
        have hkeys := dictInsert_keys_fresh i
          { t with
            status := TaskStatus.failed
            retry_count := t.retry_count + 1
            error_message := some m } q.failed_tasks hnotF
        simp only [allIds, pendingIds, opIds]
        rw [List.perm_iff_count]
        intro x
        rw [hkeys, dictErase_keys]
        simp only [List.count_append, List.count_cons, List.count_nil,
          List.nil_append, List.count_erase]
        by_cases hx : i = x
        · subst hx; simp only [beq_self_eq_true, if_true]; omega
        · have hbx : (i == x) = false := by simpa using hx
          simp [hbx]

theorem procConsistent_stepOp {R : Type} (q : ExtractionQueue R) (op : QOp R)
    (hpc : procConsistent q) : procConsistent (stepOp q op) := by
  cases op with
  | clearAll =>
    intro p hp
    simp [stepOp, ExtractionQueue.clear] at hp
  | add t =>
    intro p hp
    apply hpc
    by_cases hs : t.status ≠ TaskStatus.pending <;>
      simpa [stepOp, ExtractionQueue.add_task, hs] using hp
  | next =>
    obtain ⟨⟨items⟩, c, f, pr⟩ := q
    cases items with
    | nil =>
      intro p hp
      exact hpc p hp
    | cons t rest =>
      intro p hp
      simp only [stepOp, ExtractionQueue.get_next_task,
        PriorityQueue.dequeue] at hp
      rcases mem_dictInsert hp with hp | hp
      · subst hp; rfl
      · exact hpc p hp
  | complete i r =>
    cases hget : dictGet i q.processing_tasks with
    | none =>
      intro p hp
      apply hpc
      simpa [stepOp, ExtractionQueue.complete_task, hget] using hp
    | some t =>
      intro p hp
      simp only [stepOp, ExtractionQueue.complete_task, hget] at hp
      exact hpc p (mem_dictErase hp)
  | fail i m b =>
    cases hget : dictGet i q.processing_tasks with
    | none =>
      intro p hp
      apply hpc
      simpa [stepOp, ExtractionQueue.fail_task, hget] using hp
    | some t =>
      intro p hp
      by_cases hb : b = true ∧ t.retry_count + 1 < t.max_retries <;>
        simp only [stepOp, ExtractionQueue.fail_task, hget, hb, if_true,
          if_false, and_true, and_false] at hp <;>
        exact hpc p (mem_dictErase (by simpa using hp))

theorem nodup_stepOp {R : Type} (q : ExtractionQueue R) (op : QOp R)
    (hnd : (allIds q).Nodup) (hpc : procConsistent q)
    (hv : validOp q op = true) : (allIds (stepOp q op)).Nodup := by
  by_cases hnc : op = QOp.clearAll
  · subst hnc
    simp [stepOp, ExtractionQueue.clear, allIds, pendingIds]
  · have hperm := allIds_stepOp_perm q op hnd hpc hv hnc
    have htarget : (opIds op ++ allIds q).Nodup := by
      cases op with
      | add t =>
        have hv2 : t.status = TaskStatus.pending ∧ t.task_id ∉ allIds q := by
          simpa [validOp] using hv
        simpa [opIds, hnd] using hv2.2
      | next => simpa [opIds] using hnd
      | complete i r => simpa [opIds] using hnd
      | fail i m b => simpa [opIds] using hnd
      | clearAll => exact absurd rfl hnc
    exact hperm.nodup_iff.2 htarget

theorem allIds_length_total {R : Type} (q : ExtractionQueue R) :
    (allIds q).length = q.get_stats.total := by
  simp [allIds, pendingIds, ExtractionQueue.get_stats,
    ExtractionQueue.get_pending_count, ExtractionQueue.get_processing_count,
    ExtractionQueue.get_completed_count, ExtractionQueue.get_failed_count]
  omega

theorem runOps_invariant {R : Type} (ops : List (QOp R)) :
    ∀ (q : ExtractionQueue R), (allIds q).Nodup → procConsistent q →
      validOps q ops = true →
      ((allIds (runOps q ops)).Nodup ∧ procConsistent (runOps q ops)) ∧
      ((∀ op ∈ ops, op ≠ QOp.clearAll) →
        (allIds (runOps q ops)).Perm (addedIds ops ++ allIds q)) := by
  induction ops with
  | nil =>
    intro q h1 h2 _
    exact ⟨⟨h1, h2⟩, fun _ => by simp [runOps, addedIds]⟩
  | cons op ops ih =>
    intro q h1 h2 hv
    have hv12 : validOp q op = true ∧ validOps (stepOp q op) ops = true := by
      simpa [validOps, Bool.and_eq_true] using hv
    have hn2 := nodup_stepOp q op h1 h2 hv12.1
    have hp2 := procConsistent_stepOp q op h2
    have hrec := ih (stepOp q op) hn2 hp2 hv12.2
    have hrun : runOps q (op :: ops) = runOps (stepOp q op) ops := by
      simp [runOps]
    refine ⟨by rw [hrun]; exact hrec.1, ?_⟩
    intro hnc
    have hop : op ≠ QOp.clearAll := hnc op (List.mem_cons_self op ops)
    have hperm1 := allIds_stepOp_perm q op h1 h2 hv12.1 hop
    have hperm2 := hrec.2 (fun o ho => hnc o (List.mem_cons_of_mem op ho))
    rw [hrun]
    have t1 : (allIds (runOps (stepOp q op) ops)).Perm
        (addedIds ops ++ (opIds op ++ allIds q)) :=
      hperm2.trans (hperm1.append_left _)
    have t2 : (addedIds ops ++ (opIds op ++ allIds q)).Perm
        ((opIds op ++ addedIds ops) ++ allIds q) := by
      rw [← List.append_assoc]
      exact List.perm_append_comm.append_right _
    have t3 := t1.trans t2
    simpa [addedIds] using t3

/-- C2: after any valid single-threaded sequence of operations on tasks
with distinct ids, starting from a fresh `ExtractionQueue`, the
concatenation of the four id collections (pending queue, processing map,
completed map, failed map) has no duplicate: each id belongs to at most
one collection. If no `clear` occurs, that concatenation is a
permutation of the ids added, so each added id belongs to exactly one
collection and `get_stats().total` equals the number of distinct ids
ever added. Before any `add_task` (and after `clear()`) every collection
is empty, so an id belongs to zero collections. -/
theorem C2_partition_invariant {R : Type} (ops : List (QOp R))
    (hv : validOps ExtractionQueue.empty ops = true) :
    (allIds (runOps ExtractionQueue.empty ops)).Nodup ∧
    ((∀ op ∈ ops, op ≠ QOp.clearAll) →
      (allIds (runOps ExtractionQueue.empty ops)).Perm (addedIds ops)) ∧
    ((∀ op ∈ ops, op ≠ QOp.clearAll) →
      (runOps ExtractionQueue.empty ops).get_stats.total
        = (addedIds ops).length) ∧
    allIds (ExtractionQueue.empty : ExtractionQueue R) = [] ∧
    (∀ q2 : ExtractionQueue R, allIds q2.clear = []) := by
  have h0 : (allIds (ExtractionQueue.empty : ExtractionQueue R)).Nodup := by
    simp [allIds, pendingIds, ExtractionQueue.empty]
  have hp0 : procConsistent (ExtractionQueue.empty : ExtractionQueue R) := by
    intro p hp
    simp [ExtractionQueue.empty] at hp
  have h := runOps_invariant ops ExtractionQueue.empty h0 hp0 hv
  have hperm : (∀ op ∈ ops, op ≠ QOp.clearAll) →
      (allIds (runOps ExtractionQueue.empty ops)).Perm (addedIds ops) := by
    intro hnc
    have h2 := h.2 hnc
    simpa [allIds, pendingIds, ExtractionQueue.empty] using h2
  refine ⟨h.1.1, hperm, ?_, ?_, ?_⟩
  · intro hnc
    have hlen := (hperm hnc).length_eq
    rw [allIds_length_total] at hlen
    exact hlen
  · simp [allIds, pendingIds, ExtractionQueue.empty]
  · intro q2
    simp [allIds, pendingIds, ExtractionQueue.clear]

/-- Witness for C2: a valid six-operation run — two adds, a dequeue, a
completion, a dequeue, a retried failure — keeps the partition invariant
and reports `total = 2`. -/
theorem C2_partition_invariant_witness :
    (validOps (ExtractionQueue.empty : ExtractionQueue Nat)
        [QOp.add (mkTask "a" TaskPriority.low 0 3),
         QOp.add (mkTask "b" TaskPriority.urgent 1 3),
         QOp.next, QOp.complete "b" 7, QOp.next,
         QOp.fail "a" "err" true] = true) ∧
    (allIds (runOps (ExtractionQueue.empty : ExtractionQueue Nat)
        [QOp.add (mkTask "a" TaskPriority.low 0 3),
         QOp.add (mkTask "b" TaskPriority.urgent 1 3),
         QOp.next, QOp.complete "b" 7, QOp.next,
         QOp.fail "a" "err" true])).Nodup ∧
    (runOps (ExtractionQueue.empty : ExtractionQueue Nat)
        [QOp.add (mkTask "a" TaskPriority.low 0 3),
         QOp.add (mkTask "b" TaskPriority.urgent 1 3),
         QOp.next, QOp.complete "b" 7, QOp.next,
         QOp.fail "a" "err" true]).get_stats.total = 2 :=
  ⟨by decide,
   (C2_partition_invariant
      [QOp.add (mkTask "a" TaskPriority.low 0 3),
       QOp.add (mkTask "b" TaskPriority.urgent 1 3),
       QOp.next, QOp.complete "b" 7, QOp.next,
       QOp.fail "a" "err" true] (by decide)).1,
   by
     have h := (C2_partition_invariant
        [QOp.add (mkTask "a" TaskPriority.low 0 3),
         QOp.add (mkTask "b" TaskPriority.urgent 1 3),
         QOp.next, QOp.complete "b" 7, QOp.next,
         QOp.fail "a" "err" true] (by decide)).2.2.1 (by decide)
     simpa [addedIds, opIds] using h⟩

end StationMeteo
